import Mathlib

/-!
Verification of `lib/schema/date.js` (the mongoose `SchemaDate` field type).

The JavaScript source is shallowly embedded: JS runtime values that can reach
`SchemaDate.prototype.cast`, the min/max bound-validator state machine and
`castForQuery` are modelled by an inductive `JSValue`; JS numbers (IEEE
doubles) are modelled as exact rationals plus the three non-finite values
`NaN`, `Infinity`, `-Infinity`; `Date` objects are their time value (an
integer count of epoch milliseconds) or the invalid date (`NaN` time value).
A JS string is modelled by its text together with the two host observations
the source makes of it: `Number(s)` and `new Date(s)` (the ECMAScript string
numeric conversion and the calendar parser, both host primitives outside
this repository).  Thrown exceptions are modelled with `Except`.
-/

/-- A JavaScript number: `NaN`, the two infinities, or a finite value
(every finite IEEE double is an exact rational, so `ℚ` is a sound
superset of the finite doubles). -/
inductive JSNum where
  | nan
  | posInf
  | negInf
  | fin (q : ℚ)
deriving DecidableEq

/-- `isNaN(n)` for a JS number. -/
def JSNum.isNaN : JSNum → Bool
  | .nan => true
  | _ => false

/-- `n >= q` for a JS number against a finite threshold (false on `NaN`). -/
def JSNum.geQ : JSNum → ℚ → Bool
  | .nan, _ => false
  | .posInf, _ => true
  | .negInf, _ => false
  | .fin x, q => decide (q ≤ x)

/-- `n < q` for a JS number against a finite threshold (false on `NaN`). -/
def JSNum.ltQ : JSNum → ℚ → Bool
  | .nan, _ => false
  | .posInf, _ => false
  | .negInf, _ => true
  | .fin x, q => decide (x < q)

/-- The ECMAScript abstract less-than on two JS numbers; `none` means the
comparison is undefined because one side is `NaN`. -/
def JSNum.ltb : JSNum → JSNum → Option Bool
  | .nan, _ => none
  | _, .nan => none
  | .negInf, .negInf => some false
  | .negInf, _ => some true
  | _, .negInf => some false
  | .posInf, _ => some false
  | _, .posInf => some true
  | .fin x, .fin y => some (decide (x < y))

/-- A JS string as observed by `lib/schema/date.js`: its text, the value of
`Number(s)` (host string-to-number conversion) and the time value of
`new Date(s)` (host calendar parser; `none` is the invalid date). -/
structure JSString where
  text : String
  toNumber : JSNum
  parseDate : Option Int
deriving DecidableEq

/-- A JS primitive value (the possible results of a `valueOf()` call). -/
inductive JSPrim where
  | pnull
  | pundef
  | pbool (b : Bool)
  | pnum (n : JSNum)
  | pstr (s : JSString)
deriving DecidableEq

/-- ECMAScript `ToNumber` on primitives. -/
def JSPrim.toNumber : JSPrim → JSNum
  | .pnull => .fin 0
  | .pundef => .nan
  | .pbool b => .fin (if b then 1 else 0)
  | .pnum n => n
  | .pstr s => s.toNumber

/-- The JS values that can reach the code under verification: `null`,
`undefined`, primitive booleans/numbers/strings, `Date` instances (time
value, `none` = invalid date), boxed `Number` and `Boolean` wrapper
objects, and a generic object whose `valueOf()` returns the given
primitive (e.g. a moment.js value).  Every standard JS object inherits a
callable `valueOf`, so the source's final fallback branch (line 246) is
unreachable for these values and is not modelled. -/
inductive JSValue where
  | vnull
  | vundefined
  | vbool (b : Bool)
  | vnum (n : JSNum)
  | vstr (s : JSString)
  | vdate (t : Option Int)
  | vnumObj (n : JSNum)
  | vboolObj (b : Bool)
  | vobj (p : JSPrim)
deriving DecidableEq

/-- Errors thrown by the embedded code: `CastError(kind, value, path)` from
`SchemaType.CastError`, the runtime `TypeError` (member access on
`undefined`/`null`), and a plain `Error(message)`. -/
inductive JSErr where
  | castError (kind : String) (value : JSValue) (path : String)
  | typeError
  | jsError (msg : String)
deriving DecidableEq

instance {ε α : Type} [DecidableEq ε] [DecidableEq α] : DecidableEq (Except ε α) :=
  fun a b =>
    match a, b with
    | .ok x, .ok y => if h : x = y then .isTrue (by rw [h]) else .isFalse (by simp [h])
    | .error x, .error y => if h : x = y then .isTrue (by rw [h]) else .isFalse (by simp [h])
    | .ok _, .error _ => .isFalse (by simp)
    | .error _, .ok _ => .isFalse (by simp)

/-- JS truthiness of a value. -/
def jsTruthy : JSValue → Bool
  | .vnull => false
  | .vundefined => false
  | .vbool b => b
  | .vnum .nan => false
  | .vnum (.fin q) => decide (q ≠ 0)
  | .vnum _ => true
  | .vstr s => decide (s.text ≠ "")
  | .vdate _ => true
  | .vnumObj _ => true
  | .vboolObj _ => true
  | .vobj _ => true

/-- `value.valueOf()`: throws `TypeError` on `null`/`undefined`, unwraps
wrapper objects, returns the time value of a `Date` (`NaN` when invalid),
and is the identity on other primitives. -/
def jsValueOf : JSValue → Except JSErr JSPrim
  | .vnull => .error .typeError
  | .vundefined => .error .typeError
  | .vbool b => .ok (.pbool b)
  | .vnum n => .ok (.pnum n)
  | .vstr s => .ok (.pstr s)
  | .vdate (some t) => .ok (.pnum (.fin (t : ℚ)))
  | .vdate none => .ok (.pnum .nan)
  | .vnumObj n => .ok (.pnum n)
  | .vboolObj b => .ok (.pbool b)
  | .vobj p => .ok p

/-- Truncation toward zero of a rational, as ECMAScript `ToIntegerOrInfinity`
does on a finite number (`Int.div` is T-division). -/
def jsTrunc (q : ℚ) : Int := Int.tdiv q.num (q.den : Int)

/-- The largest representable `Date` time value, 8.64e15 milliseconds. -/
def maxTimeValue : ℚ := 8640000000000000

/-- ECMAScript `TimeClip` composed with `ToNumber`: the time value of
`new Date(n)` for a JS number `n`; `none` is the invalid date. -/
def mkTime (n : JSNum) : Option Int :=
  match n with
  | .fin q => if -maxTimeValue ≤ q ∧ q ≤ maxTimeValue then some (jsTrunc q) else none
  | _ => none

/-- The time value of `new Date(p)` for a primitive `p`: strings go through
the calendar parser, everything else through `ToNumber` and `TimeClip`. -/
def newDate1 : JSPrim → Option Int
  | .pstr s => s.parseDate
  | p => mkTime p.toNumber

/-- Wrap a computed time value into the result of `cast` (source lines
249-253): a valid date is returned, the invalid date throws
`CastError('date', value, path)` on the original candidate. -/
def finishCast (path : String) (value : JSValue) : Option Int → Except JSErr JSValue
  | some t => .ok (.vdate (some t))
  | none => .error (.castError "date" value path)

namespace SchemaDate

/-- `SchemaDate.prototype.cast` (source lines 215-254), branch for branch:
`null`/`undefined`/`''` map to `null`; a `Date` instance is returned
unchanged when valid and rejected when invalid; a primitive boolean is
rejected; numbers and boxed numbers are epoch milliseconds; a fully
numeric-looking string whose numeric value is `>= 275761` or `< -271820`
is epoch milliseconds; otherwise the candidate's `valueOf()` result is fed
to the `Date` constructor (for a string, `valueOf` is the string itself,
so it goes to the calendar parser). -/
def cast (path : String) (value : JSValue) : Except JSErr JSValue :=
  match value with
  | .vnull => .ok .vnull
  | .vundefined => .ok .vnull
  | .vstr s =>
      if s.text = "" then .ok .vnull
      else if !s.toNumber.isNaN && (s.toNumber.geQ 275761 || s.toNumber.ltQ (-271820)) then
        finishCast path value (mkTime s.toNumber)
      else
        finishCast path value (newDate1 (.pstr s))
  | .vdate none => .error (.castError "date" value path)
  | .vdate (some t) => .ok (.vdate (some t))
  | .vbool _ => .error (.castError "date" value path)
  | .vnum n => finishCast path value (mkTime n)
  | .vnumObj n => finishCast path value (mkTime n)
  | .vboolObj b => finishCast path value (newDate1 (.pbool b))
  | .vobj p => finishCast path value (newDate1 p)

/-- `SchemaDate.prototype.checkRequired` (source lines 92-94). -/
def checkRequired : JSValue → Bool
  | .vdate _ => true
  | _ => false

end SchemaDate

/-- ECMAScript `x >= y` on primitives: both-strings compares code units,
otherwise numeric comparison via `ToNumber`; any `NaN` makes it false. -/
def jsGEb (a b : JSPrim) : Bool :=
  match a, b with
  | .pstr s1, .pstr s2 => decide (s2.text ≤ s1.text)
  | x, y =>
      match JSNum.ltb x.toNumber y.toNumber with
      | none => false
      | some l => !l

/-- ECMAScript `x <= y` on primitives (negation of `y < x`, false on `NaN`). -/
def jsLEb (a b : JSPrim) : Bool :=
  match a, b with
  | .pstr s1, .pstr s2 => decide (s1.text ≤ s2.text)
  | x, y =>
      match JSNum.ltb y.toNumber x.toNumber with
      | none => false
      | some l => !l

/-- The bound argument passed to `min`/`max`: either the `Date.now` function
itself (the deferred current-time marker, compared by identity at source
lines 140 and 196) or an ordinary JS value. -/
inductive Bound where
  | dateNow
  | js (v : JSValue)
deriving DecidableEq

/-- Truthiness of a bound argument (`Date.now` is a function, hence truthy). -/
def Bound.truthy : Bound → Bool
  | .dateNow => true
  | .js v => jsTruthy v

/-- The kind tag of an installed bound validator (`type: 'min'` / `'max'`). -/
inductive ValidKind where
  | vmin
  | vmax
deriving DecidableEq

/-- Whether a kind tag is the minimum kind. -/
def ValidKind.isMin : ValidKind → Bool
  | .vmin => true
  | .vmax => false

/-- Whether a kind tag is the maximum kind. -/
def ValidKind.isMax : ValidKind → Bool
  | .vmin => false
  | .vmax => true

/-- One entry of `this.validators` as pushed by `min`/`max` (source lines
138-146 and 194-202).  The pushed closure is determined by the captured
bound, the kind and the schema's path; `id` models the identity of the
freshly created closure, which `this.minValidator`/`this.maxValidator`
record and which the removal filter compares with `!==`. -/
structure ValidatorEntry where
  id : Nat
  vkind : ValidKind
  bound : Bound
  message : String
deriving DecidableEq

/-- The mutable state of a `SchemaDate` object that `min`/`max` touch: the
field path, the validator chain, the identities recorded in
`this.minValidator` / `this.maxValidator` (absent = `undefined`), and the
supply of fresh closure identities. -/
structure SchemaDateState where
  path : String
  validators : List ValidatorEntry
  minValidator : Option Nat
  maxValidator : Option Nat
  nextId : Nat
deriving DecidableEq

/-- Modelled from the spec: a freshly constructed field-type descriptor
(base `SchemaType` constructor, not under `src/`) starts with an empty
validator chain and no recorded bound validators (spec section 3: the chain
is an ordered sequence owned by the object; `minValidator`/`maxValidator`
are absent until `min`/`max` installs one). -/
def initState (path : String) : SchemaDateState :=
  { path := path, validators := [], minValidator := none, maxValidator := none, nextId := 0 }

/-- Host collaborators used by `min`/`max`: `Date.prototype.toString` on a
time value, and the default message templates
`MongooseError.messages.Date.min` / `.max` (the error-message catalog is a
collaborator outside `src/`; spec section 6). -/
structure Host where
  dateToString : Int → String
  msgDateMin : String
  msgDateMax : String

/-- Drop-in replacement of the first occurrence of `pat` in a character
list (helper for `String.replace` with a non-global pattern). -/
def replaceFirstAux (pat repl : List Char) : List Char → List Char
  | [] => []
  | c :: rest =>
      if List.isPrefixOf pat (c :: rest) then repl ++ (c :: rest).drop pat.length
      else c :: replaceFirstAux pat repl rest

/-- JS `s.replace(pat, repl)` with a literal, non-global pattern: replaces
only the first occurrence. -/
def replaceFirst (s pat repl : String) : String :=
  ⟨replaceFirstAux pat.data repl.data s.data⟩

namespace SchemaDate

/-- The `{MIN}`/`{MAX}` substitution value computed at installation time
(source lines 136 and 192): the literal text `Date.now()` for the deferred
marker, otherwise `this.cast(value).toString()` — which throws if the bound
does not cast.  `cast` only ever succeeds with `null` or a valid date
(lemma `cast_ok_shape`); calling `toString` on `null` throws `TypeError`,
and the remaining arm is unreachable. -/
def boundMsgToken (host : Host) (path : String) : Bound → Except JSErr String
  | .dateNow => .ok "Date.now()"
  | .js v =>
      match cast path v with
      | .error e => .error e
      | .ok (.vdate (some t)) => .ok (host.dateToString t)
      | .ok .vnull => .error .typeError
      | .ok _ => .ok ""

/-- The removal pass at the top of `min` (source lines 128-132): when
`this.minValidator` is set, keep only the entries whose validator is not
(`!==`) the recorded one. -/
def removeMin (st : SchemaDateState) : SchemaDateState :=
  match st.minValidator with
  | none => st
  | some fid => { st with validators := st.validators.filter (fun e => e.id != fid) }

/-- The removal pass at the top of `max` (source lines 184-188). -/
def removeMax (st : SchemaDateState) : SchemaDateState :=
  match st.maxValidator with
  | none => st
  | some fid => { st with validators := st.validators.filter (fun e => e.id != fid) }

/-- `SchemaDate.prototype.min` (source lines 127-150): remove the previous
minimum validator (by identity) if one is recorded; then, if the new bound
is truthy, compute the message (substituting `{MIN}`; this casts a literal
bound and can throw) and push a fresh validator entry, recording its
identity in `minValidator`.  The returned pair is the state after the
mutations that happened and the thrown exception, if any. -/
def min (host : Host) (st : SchemaDateState) (value : Bound) (message : Option String) :
    SchemaDateState × Option JSErr :=
  let st1 := removeMin st
  if value.truthy then
    match boundMsgToken host st1.path value with
    | .error e => (st1, some e)
    | .ok tok =>
        let msg := replaceFirst (message.getD host.msgDateMin) "\x7bMIN\x7d" tok
        ({ st1 with
            validators := st1.validators ++ [⟨st1.nextId, .vmin, value, msg⟩],
            minValidator := some st1.nextId,
            nextId := st1.nextId + 1 }, none)
  else (st1, none)

/-- `SchemaDate.prototype.max` (source lines 183-206), symmetric to `min`. -/
def max (host : Host) (st : SchemaDateState) (value : Bound) (message : Option String) :
    SchemaDateState × Option JSErr :=
  let st1 := removeMax st
  if value.truthy then
    match boundMsgToken host st1.path value with
    | .error e => (st1, some e)
    | .ok tok =>
        let msg := replaceFirst (message.getD host.msgDateMax) "\x7bMAX\x7d" tok
        ({ st1 with
            validators := st1.validators ++ [⟨st1.nextId, .vmax, value, msg⟩],
            maxValidator := some st1.nextId,
            nextId := st1.nextId + 1 }, none)
  else (st1, none)

end SchemaDate

/-- The first line of the pushed validator closures (source lines 140 and
196): `value === Date.now ? value() : _this.cast(value)`.  `now` is the
current epoch-millisecond time at this evaluation, so the deferred marker
resolves freshly on every call; a literal bound is re-cast on every call. -/
def resolveBound (path : String) (b : Bound) (now : Int) : Except JSErr JSValue :=
  match b with
  | .dateNow => .ok (.vnum (.fin (now : ℚ)))
  | .js v => SchemaDate.cast path v

/-- One evaluation of an installed bound-validator closure (source lines
139-142 / 195-198): resolve the bound (this can throw for an uncastable
literal), then `val === null || val.valueOf() >= min.valueOf()` (or `<=`
for a maximum); member access `val.valueOf` throws `TypeError` on
`undefined`. -/
def evalValidator (path : String) (e : ValidatorEntry) (now : Int) (val : JSValue) :
    Except JSErr Bool :=
  match resolveBound path e.bound now with
  | .error err => .error err
  | .ok m =>
      if val = .vnull then .ok true
      else
        match jsValueOf val with
        | .error err => .error err
        | .ok x =>
            match jsValueOf m with
            | .error err => .error err
            | .ok mv =>
                match e.vkind with
                | .vmin => .ok (jsGEb x mv)
                | .vmax => .ok (jsLEb x mv)

/-- A call to `min` or `max` (bound plus optional custom message). -/
inductive DateOp where
  | minOp (b : Bound) (msg : Option String)
  | maxOp (b : Bound) (msg : Option String)

/-- Apply one `min`/`max` call to the state (the thrown exception, if any,
leaves the state exactly as the partial mutation left it). -/
def applyOp (host : Host) (st : SchemaDateState) : DateOp → SchemaDateState
  | .minOp b msg => (SchemaDate.min host st b msg).1
  | .maxOp b msg => (SchemaDate.max host st b msg).1

/-- Run a sequence of `min`/`max` calls. -/
def runOps (host : Host) (st : SchemaDateState) (ops : List DateOp) : SchemaDateState :=
  ops.foldl (applyOp host) st

/-- Number of minimum-bound entries in the validator chain. -/
def countMin (st : SchemaDateState) : Nat :=
  (st.validators.filter (fun e => e.vkind.isMin)).length

/-- Number of maximum-bound entries in the validator chain. -/
def countMax (st : SchemaDateState) : Nat :=
  (st.validators.filter (fun e => e.vkind.isMax)).length

/-- A conditional handler: called with `this` (here: the path) and the
operand. -/
def Handler : Type := String → JSValue → Except JSErr JSValue

/-- `handleSingle` (source lines 262-264): `this.cast(val)`. -/
def handleSingle : Handler := fun path val => SchemaDate.cast path val

/-- The message of the usage error thrown for an unsupported operator
(source line 293). -/
def cantUseMsg (op : String) : String :=
  "Can" ++ String.singleton (Char.ofNat 39) ++ "t use " ++ op ++ " with Date."

namespace SchemaDate

/-- `SchemaDate.prototype.$conditionalHandlers` (source lines 266-272).
Modelled from the spec: `utils.options(defaults, overrides)` (not under
`src/`) merges the inherited base handler table with the overrides, the
overrides winning (spec section 4.6: "inherited defaults plus this field
kind's overrides for ordering operators").  The base table of
`SchemaType.prototype` is an abstract parameter. -/
def conditionalHandlers (base : String → Option Handler) : String → Option Handler :=
  fun op =>
    if op == "$gt" || op == "$gte" || op == "$lt" || op == "$lte" then some handleSingle
    else base op

/-- The two-argument form of `SchemaDate.prototype.castForQuery` (source
lines 283-297): look the operator up in `$conditionalHandlers`; a missing
handler throws `Error("Can't use <op> with Date.")`, otherwise the handler
is called with `this` and the value. -/
def castForQuery2 (base : String → Option Handler) (path : String) (cond : String)
    (val : JSValue) : Except JSErr JSValue :=
  match conditionalHandlers base cond with
  | none => .error (.jsError (cantUseMsg cond))
  | some h => h path val

end SchemaDate

/-- A concrete host for witnesses: a constant `toString` and one-word
default message templates. -/
def host0 : Host :=
  { dateToString := fun _ => "d", msgDateMin := "too early", msgDateMax := "too late" }

/-- A concrete empty base handler table for witnesses. -/
def base0 : String → Option Handler := fun _ => none

/-- A concrete numeric-looking string for witnesses: text `"275761"`,
`Number` value `275761`, not parseable as a calendar date. -/
def s275761 : JSString := { text := "275761", toNumber := .fin 275761, parseDate := none }

/-- A concrete call sequence for witnesses: two `min` calls and one
deferred-`now` `max` call. -/
def ops0 : List DateOp :=
  [.minOp (.js (.vdate (some 5))) none, .minOp (.js (.vdate (some 6))) none,
   .maxOp .dateNow none]

/-- The validator entry installed by `min` with literal bound `new Date(7)`
on a fresh state with path `"p"` (used by witnesses). -/
def e0 : ValidatorEntry :=
  { id := 0, vkind := .vmin, bound := .js (.vdate (some 7)), message := "too early" }

/-- The state invariant maintained by `min`/`max`: validator identities are
pairwise distinct and below the fresh-identity supply, every minimum entry
is the one recorded in `minValidator`, and every maximum entry is the one
recorded in `maxValidator`. -/
def StInv (st : SchemaDateState) : Prop :=
  st.validators.Pairwise (fun a b => a.id ≠ b.id) ∧
  (∀ e ∈ st.validators, e.id < st.nextId) ∧
  (∀ e ∈ st.validators, e.vkind = .vmin → st.minValidator = some e.id) ∧
  (∀ e ∈ st.validators, e.vkind = .vmax → st.maxValidator = some e.id)

/-- `finishCast` never succeeds with `null`: it either returns a valid date
or throws. -/
theorem finishCast_ne_null (path : String) (v : JSValue) (d : Option Int) :
    ¬ finishCast path v d = .ok .vnull := by
  cases d <;> simp [finishCast]

/-- `cast` only ever succeeds with `null` or a valid date (the soundness
check at source lines 249-253). -/
theorem cast_ok_shape (path : String) (v : JSValue) (r : JSValue)
    (h : SchemaDate.cast path v = .ok r) : r = .vnull ∨ ∃ t : Int, r = .vdate (some t) := by
  cases v with
  | vnull => exact .inl (by simpa [SchemaDate.cast] using h.symm)
  | vundefined => exact .inl (by simpa [SchemaDate.cast] using h.symm)
  | vbool b => simp [SchemaDate.cast] at h
  | vdate t =>
      cases t with
      | none => simp [SchemaDate.cast] at h
      | some t => exact .inr ⟨t, by simpa [SchemaDate.cast] using h.symm⟩
  | vnum n =>
      simp only [SchemaDate.cast, finishCast] at h
      cases hd : mkTime n <;> rw [hd] at h <;> simp at h
      exact .inr ⟨_, h.symm⟩
  | vnumObj n =>
      simp only [SchemaDate.cast, finishCast] at h
      cases hd : mkTime n <;> rw [hd] at h <;> simp at h
      exact .inr ⟨_, h.symm⟩
  | vboolObj b =>
      simp only [SchemaDate.cast, finishCast] at h
      cases hd : newDate1 (.pbool b) <;> rw [hd] at h <;> simp at h
      exact .inr ⟨_, h.symm⟩
  | vobj p =>
      simp only [SchemaDate.cast, finishCast] at h
      cases hd : newDate1 p <;> rw [hd] at h <;> simp at h
      exact .inr ⟨_, h.symm⟩
  | vstr s =>
      by_cases h0 : s.text = ""
      · exact .inl (by simp [SchemaDate.cast, h0] at h; exact h.symm)
      · simp only [SchemaDate.cast, h0, if_false, ite_false] at h
        split at h
        · unfold finishCast at h
          cases hd : mkTime s.toNumber <;> rw [hd] at h <;> simp at h
          exact .inr ⟨_, h.symm⟩
        · unfold finishCast at h
          cases hd : newDate1 (.pstr s) <;> rw [hd] at h <;> simp at h
          exact .inr ⟨_, h.symm⟩

/-- Claim C1: for every primitive boolean candidate, `cast` fails with a
`CastError` of kind `"date"` carrying the original candidate and the field
path; booleans are never coerced to a temporal value — the boolean check
(source line 231) precedes the numeric-coercion branch (line 235), so the
result is this error and never the date a numeric coercion of
`true`/`false` would produce. -/
theorem cast_rejects_primitive_booleans (path : String) (b : Bool) :
    SchemaDate.cast path (.vbool b) = .error (.castError "date" (.vbool b) path) := rfl

/-- Claim C3: a candidate that is already a `Date` instance is returned
unchanged (the source returns `value` itself, so the embedding returns the
input term unmodified) when its time value is valid, and `cast` fails with
`CastError('date', value, path)` when it is the invalid date. -/
theorem cast_date_instance_identity (path : String) (t : Int) :
    SchemaDate.cast path (.vdate (some t)) = .ok (.vdate (some t)) ∧
    SchemaDate.cast path (.vdate none) = .error (.castError "date" (.vdate none) path) :=
  ⟨rfl, rfl⟩

/-- Claim C4: `cast` maps `null`, `undefined` and the empty string to
`null` without error, and these are the only candidates mapped to `null`
(every other branch returns a date or throws). -/
theorem cast_null_only_for_missing (path : String) (v : JSValue) :
    SchemaDate.cast path v = .ok .vnull ↔
      v = .vnull ∨ v = .vundefined ∨ ∃ s, v = .vstr s ∧ s.text = "" := by
  cases v with
  | vnull => simp [SchemaDate.cast]
  | vundefined => simp [SchemaDate.cast]
  | vbool b => simp [SchemaDate.cast]
  | vnum n => simp [SchemaDate.cast, finishCast_ne_null]
  | vnumObj n => simp [SchemaDate.cast, finishCast_ne_null]
  | vboolObj b => simp [SchemaDate.cast, finishCast_ne_null]
  | vobj p => simp [SchemaDate.cast, finishCast_ne_null]
  | vdate t => cases t <;> simp [SchemaDate.cast]
  | vstr s =>
      by_cases h0 : s.text = ""
      · simp [SchemaDate.cast, h0]
      · simp only [SchemaDate.cast, h0, ite_false]
        split <;> simp [finishCast_ne_null, h0]

/-- Claim C9: a boxed Boolean wrapper object is not caught by the
`typeof value === 'boolean'` check, so it routes through the
`valueOf`-coercion branch and casts to the valid date at epoch millisecond
`1` (for `new Boolean(true)`) or `0` (for `new Boolean(false)`), in
contrast to primitive booleans, which always fail. -/
theorem cast_boxed_boolean_coerces (path : String) (b : Bool) :
    SchemaDate.cast path (.vboolObj b) = .ok (.vdate (some (if b then 1 else 0))) ∧
    SchemaDate.cast path (.vbool b) = .error (.castError "date" (.vbool b) path) := by
  refine ⟨?_, rfl⟩
  cases b <;> rfl

/-- Claim C2: a string whose `Number` conversion is not `NaN` and is
`>= 275761` or `< -271820` is cast by interpreting that number as epoch
milliseconds — the result is exactly `finishCast` of `mkTime` of the
number (never the calendar parse of the string, whatever `parseDate` is),
and as a partial function it agrees with casting the number itself: same
successful value, and failure exactly when casting the number fails.
(`h0` holds of every real such string, since `Number('') = 0`.) -/
theorem cast_numeric_string_epoch_millis (path : String) (s : JSString)
    (h0 : s.text ≠ "")
    (h1 : s.toNumber.isNaN = false)
    (h2 : s.toNumber.geQ 275761 = true ∨ s.toNumber.ltQ (-271820) = true) :
    SchemaDate.cast path (.vstr s) = finishCast path (.vstr s) (mkTime s.toNumber) ∧
    (SchemaDate.cast path (.vstr s)).toOption =
      (SchemaDate.cast path (.vnum s.toNumber)).toOption := by
  have hcond : (!s.toNumber.isNaN && (s.toNumber.geQ 275761 || s.toNumber.ltQ (-271820)))
      = true := by
    rcases h2 with h2 | h2 <;> simp [h1, h2]
  constructor
  · simp [SchemaDate.cast, h0, hcond]
  · simp only [SchemaDate.cast, h0, ite_false, hcond, if_true, ite_true]
    cases hd : mkTime s.toNumber <;> simp [finishCast, Except.toOption]

/-- Witness for C2 at the concrete string `"275761"`. -/
theorem cast_numeric_string_epoch_millis_witness :
    s275761.text ≠ "" ∧ s275761.toNumber.isNaN = false ∧
    s275761.toNumber.geQ 275761 = true ∧
    (SchemaDate.cast "p" (.vstr s275761) = finishCast "p" (.vstr s275761) (mkTime s275761.toNumber) ∧
     (SchemaDate.cast "p" (.vstr s275761)).toOption =
       (SchemaDate.cast "p" (.vnum s275761.toNumber)).toOption) :=
  ⟨by decide, rfl, by decide,
   cast_numeric_string_epoch_millis "p" s275761 (by decide) rfl (Or.inl (by decide))⟩

/-- A kind tag whose `isMin` bit is set is the minimum kind. -/
theorem isMin_iff (k : ValidKind) : k.isMin = true ↔ k = .vmin := by
  cases k <;> simp [ValidKind.isMin]

/-- A kind tag whose `isMax` bit is set is the maximum kind. -/
theorem isMax_iff (k : ValidKind) : k.isMax = true ↔ k = .vmax := by
  cases k <;> simp [ValidKind.isMax]

/-- `removeMin` only filters the chain: path, recorded identities and the
identity supply are untouched. -/
theorem removeMin_fields (st : SchemaDateState) :
    (SchemaDate.removeMin st).path = st.path ∧
    (SchemaDate.removeMin st).minValidator = st.minValidator ∧
    (SchemaDate.removeMin st).maxValidator = st.maxValidator ∧
    (SchemaDate.removeMin st).nextId = st.nextId := by
  cases h : st.minValidator <;> simp [SchemaDate.removeMin, h]

/-- `removeMax` only filters the chain. -/
theorem removeMax_fields (st : SchemaDateState) :
    (SchemaDate.removeMax st).path = st.path ∧
    (SchemaDate.removeMax st).minValidator = st.minValidator ∧
    (SchemaDate.removeMax st).maxValidator = st.maxValidator ∧
    (SchemaDate.removeMax st).nextId = st.nextId := by
  cases h : st.maxValidator <;> simp [SchemaDate.removeMax, h]

/-- The chain after `removeMin` is a sublist of the previous chain. -/
theorem removeMin_sublist (st : SchemaDateState) :
    (SchemaDate.removeMin st).validators.Sublist st.validators := by
  cases h : st.minValidator <;> simp [SchemaDate.removeMin, h, List.filter_sublist]

/-- The chain after `removeMax` is a sublist of the previous chain. -/
theorem removeMax_sublist (st : SchemaDateState) :
    (SchemaDate.removeMax st).validators.Sublist st.validators := by
  cases h : st.maxValidator <;> simp [SchemaDate.removeMax, h, List.filter_sublist]

/-- Under the invariant, `removeMin` leaves no minimum entry in the chain:
if a minimum validator was recorded, exactly its entry is filtered out; if
none was recorded, the chain had no minimum entry to begin with. -/
theorem removeMin_no_min {st : SchemaDateState} (h : StInv st) :
    ∀ e ∈ (SchemaDate.removeMin st).validators, e.vkind ≠ .vmin := by
  intro e he hk
  cases hm : st.minValidator with
  | none =>
      simp only [SchemaDate.removeMin, hm] at he
      have h2 := h.2.2.1 e he hk
      rw [hm] at h2
      exact Option.noConfusion h2
  | some fid =>
      simp only [SchemaDate.removeMin, hm] at he
      rcases List.mem_filter.mp he with ⟨hmem, hne⟩
      have h2 := h.2.2.1 e hmem hk
      rw [hm] at h2
      exact bne_iff_ne.mp hne (Option.some.inj h2.symm)

/-- Under the invariant, `removeMax` leaves no maximum entry in the chain. -/
theorem removeMax_no_max {st : SchemaDateState} (h : StInv st) :
    ∀ e ∈ (SchemaDate.removeMax st).validators, e.vkind ≠ .vmax := by
  intro e he hk
  cases hm : st.maxValidator with
  | none =>
      simp only [SchemaDate.removeMax, hm] at he
      have h2 := h.2.2.2 e he hk
      rw [hm] at h2
      exact Option.noConfusion h2
  | some fid =>
      simp only [SchemaDate.removeMax, hm] at he
      rcases List.mem_filter.mp he with ⟨hmem, hne⟩
      have h2 := h.2.2.2 e hmem hk
      rw [hm] at h2
      exact bne_iff_ne.mp hne (Option.some.inj h2.symm)

/-- `removeMin` preserves the invariant. -/
theorem inv_removeMin {st : SchemaDateState} (h : StInv st) :
    StInv (SchemaDate.removeMin st) := by
  refine ⟨List.Pairwise.sublist (removeMin_sublist st) h.1, ?_, ?_, ?_⟩
  · intro e he
    rw [(removeMin_fields st).2.2.2]
    exact h.2.1 e ((removeMin_sublist st).mem he)
  · intro e he hk
    exact absurd hk (removeMin_no_min h e he)
  · intro e he hk
    rw [(removeMin_fields st).2.2.1]
    exact h.2.2.2 e ((removeMin_sublist st).mem he) hk

/-- `removeMax` preserves the invariant. -/
theorem inv_removeMax {st : SchemaDateState} (h : StInv st) :
    StInv (SchemaDate.removeMax st) := by
  refine ⟨List.Pairwise.sublist (removeMax_sublist st) h.1, ?_, ?_, ?_⟩
  · intro e he
    rw [(removeMax_fields st).2.2.2]
    exact h.2.1 e ((removeMax_sublist st).mem he)
  · intro e he hk
    rw [(removeMax_fields st).2.1]
    exact h.2.2.1 e ((removeMax_sublist st).mem he) hk
  · intro e he hk
    exact absurd hk (removeMax_no_max h e he)

/-- `SchemaDate.min` preserves the invariant, whether it removes, installs,
or throws while computing the message. -/
theorem inv_min {st : SchemaDateState} (host : Host) (b : Bound) (msg : Option String)
    (h : StInv st) : StInv (SchemaDate.min host st b msg).1 := by
  have h1 : StInv (SchemaDate.removeMin st) := inv_removeMin h
  have hno := removeMin_no_min h
  unfold SchemaDate.min
  by_cases hb : b.truthy
  · simp only [hb, if_true]
    cases hm : SchemaDate.boundMsgToken host (SchemaDate.removeMin st).path b with
    | error e => exact h1
    | ok tok =>
        set st1 := SchemaDate.removeMin st with hst1
        refine ⟨?_, ?_, ?_, ?_⟩
        · refine List.pairwise_append.mpr ⟨h1.1, List.pairwise_singleton _ _, ?_⟩
          intro a ha c hc
          rw [List.mem_singleton.mp hc]
          exact Nat.ne_of_lt (h1.2.1 a ha)
        · intro e he
          rcases List.mem_append.mp he with he | he
          · exact Nat.lt_succ_of_lt (h1.2.1 e he)
          · rw [List.mem_singleton.mp he]
            exact Nat.lt_succ_self _
        · intro e he hk
          rcases List.mem_append.mp he with he | he
          · exact absurd hk (hno e he)
          · rw [List.mem_singleton.mp he]
        · intro e he hk
          rcases List.mem_append.mp he with he | he
          · exact h1.2.2.2 e he hk
          · rw [List.mem_singleton.mp he] at hk
            exact ValidKind.noConfusion hk
  · simp only [hb, if_false, Bool.false_eq_true]
    exact h1

/-- `SchemaDate.max` preserves the invariant. -/
theorem inv_max {st : SchemaDateState} (host : Host) (b : Bound) (msg : Option String)
    (h : StInv st) : StInv (SchemaDate.max host st b msg).1 := by
  have h1 : StInv (SchemaDate.removeMax st) := inv_removeMax h
  have hno := removeMax_no_max h
  unfold SchemaDate.max
  by_cases hb : b.truthy
  · simp only [hb, if_true]
    cases hm : SchemaDate.boundMsgToken host (SchemaDate.removeMax st).path b with
    | error e => exact h1
    | ok tok =>
        refine ⟨?_, ?_, ?_, ?_⟩
        · refine List.pairwise_append.mpr ⟨h1.1, List.pairwise_singleton _ _, ?_⟩
          intro a ha c hc
          rw [List.mem_singleton.mp hc]
          exact Nat.ne_of_lt (h1.2.1 a ha)
        · intro e he
          rcases List.mem_append.mp he with he | he
          · exact Nat.lt_succ_of_lt (h1.2.1 e he)
          · rw [List.mem_singleton.mp he]
            exact Nat.lt_succ_self _
        · intro e he hk
          rcases List.mem_append.mp he with he | he
          · exact h1.2.2.1 e he hk
          · rw [List.mem_singleton.mp he] at hk
            exact ValidKind.noConfusion hk
        · intro e he hk
          rcases List.mem_append.mp he with he | he
          · exact absurd hk (hno e he)
          · rw [List.mem_singleton.mp he]
  · simp only [hb, if_false, Bool.false_eq_true]
    exact h1

/-- The invariant holds in the initial state. -/
theorem inv_initState (path : String) : StInv (initState path) := by
  refine ⟨List.Pairwise.nil, ?_, ?_, ?_⟩ <;> intro e he <;> exact absurd he (List.not_mem_nil e)

/-- The invariant holds after any sequence of `min`/`max` calls. -/
theorem inv_runOps (host : Host) (ops : List DateOp) {st : SchemaDateState} (h : StInv st) :
    StInv (runOps host st ops) := by
  induction ops generalizing st with
  | nil => exact h
  | cons op rest ih =>
      cases op with
      | minOp b msg => exact ih (inv_min host b msg h)
      | maxOp b msg => exact ih (inv_max host b msg h)

/-- Under the invariant the chain holds at most one minimum entry and at
most one maximum entry. -/
theorem counts_le_one {st : SchemaDateState} (h : StInv st) :
    countMin st ≤ 1 ∧ countMax st ≤ 1 := by
  constructor
  · cases hl : st.validators.filter (fun e => e.vkind.isMin) with
    | nil => simp [countMin, hl]
    | cons a l2 =>
        cases l2 with
        | nil => simp [countMin, hl]
        | cons c l3 =>
            exfalso
            have hpw : (st.validators.filter (fun e => e.vkind.isMin)).Pairwise
                (fun a b => a.id ≠ b.id) :=
              List.Pairwise.sublist (List.filter_sublist _) h.1
            rw [hl] at hpw
            have hac : a.id ≠ c.id := (List.pairwise_cons.mp hpw).1 c (List.mem_cons_self c l3)
            have ham : a ∈ st.validators.filter (fun e => e.vkind.isMin) := by
              rw [hl]; exact List.mem_cons_self a _
            have hcm : c ∈ st.validators.filter (fun e => e.vkind.isMin) := by
              rw [hl]; exact List.mem_cons_of_mem a (List.mem_cons_self c l3)
            have ha := h.2.2.1 a (List.mem_filter.mp ham).1
              ((isMin_iff _).mp (List.mem_filter.mp ham).2)
            have hc := h.2.2.1 c (List.mem_filter.mp hcm).1
              ((isMin_iff _).mp (List.mem_filter.mp hcm).2)
            exact hac (Option.some.inj (ha.symm.trans hc))
  · cases hl : st.validators.filter (fun e => e.vkind.isMax) with
    | nil => simp [countMax, hl]
    | cons a l2 =>
        cases l2 with
        | nil => simp [countMax, hl]
        | cons c l3 =>
            exfalso
            have hpw : (st.validators.filter (fun e => e.vkind.isMax)).Pairwise
                (fun a b => a.id ≠ b.id) :=
              List.Pairwise.sublist (List.filter_sublist _) h.1
            rw [hl] at hpw
            have hac : a.id ≠ c.id := (List.pairwise_cons.mp hpw).1 c (List.mem_cons_self c l3)
            have ham : a ∈ st.validators.filter (fun e => e.vkind.isMax) := by
              rw [hl]; exact List.mem_cons_self a _
            have hcm : c ∈ st.validators.filter (fun e => e.vkind.isMax) := by
              rw [hl]; exact List.mem_cons_of_mem a (List.mem_cons_self c l3)
            have ha := h.2.2.2 a (List.mem_filter.mp ham).1
              ((isMax_iff _).mp (List.mem_filter.mp ham).2)
            have hc := h.2.2.2 c (List.mem_filter.mp hcm).1
              ((isMax_iff _).mp (List.mem_filter.mp hcm).2)
            exact hac (Option.some.inj (ha.symm.trans hc))

/-- A `min` call with a falsy bound leaves no minimum entry installed. -/
theorem falsy_min_clears {st : SchemaDateState} (host : Host) (msg : Option String)
    (h : StInv st) {b : Bound} (hb : b.truthy = false) :
    countMin (SchemaDate.min host st b msg).1 = 0 := by
  unfold SchemaDate.min
  simp only [hb, if_false, Bool.false_eq_true]
  have hno := removeMin_no_min h
  simp only [countMin, List.length_eq_zero]
  rw [List.filter_eq_nil_iff]
  intro e he
  simp only [Bool.not_eq_true]
  cases hk : e.vkind.isMin with
  | false => rfl
  | true => exact absurd ((isMin_iff _).mp hk) (hno e he)

/-- A `max` call with a falsy bound leaves no maximum entry installed. -/
theorem falsy_max_clears {st : SchemaDateState} (host : Host) (msg : Option String)
    (h : StInv st) {b : Bound} (hb : b.truthy = false) :
    countMax (SchemaDate.max host st b msg).1 = 0 := by
  unfold SchemaDate.max
  simp only [hb, if_false, Bool.false_eq_true]
  have hno := removeMax_no_max h
  simp only [countMax, List.length_eq_zero]
  rw [List.filter_eq_nil_iff]
  intro e he
  simp only [Bool.not_eq_true]
  cases hk : e.vkind.isMax with
  | false => rfl
  | true => exact absurd ((isMax_iff _).mp hk) (hno e he)

/-- Claim C5: after any sequence of `min`/`max` calls on a fresh field-type
object, the validator chain contains at most one minimum-bound entry and at
most one maximum-bound entry (a repeated truthy call replaces the previous
entry, located by identity, before installing a new one), and a further
`min`/`max` call with a falsy bound removes the existing entry of its kind
without installing anything. -/
theorem min_max_at_most_one_bound (host : Host) (path : String) (ops : List DateOp) :
    countMin (runOps host (initState path) ops) ≤ 1 ∧
    countMax (runOps host (initState path) ops) ≤ 1 ∧
    (∀ (b : Bound) (msg : Option String), b.truthy = false →
      countMin (SchemaDate.min host (runOps host (initState path) ops) b msg).1 = 0 ∧
      countMax (SchemaDate.max host (runOps host (initState path) ops) b msg).1 = 0) := by
  have hinv : StInv (runOps host (initState path) ops) :=
    inv_runOps host ops (inv_initState path)
  refine ⟨(counts_le_one hinv).1, (counts_le_one hinv).2, ?_⟩
  intro b msg hb
  exact ⟨falsy_min_clears host msg hinv hb, falsy_max_clears host msg hinv hb⟩

/-- Witness for C5: after the concrete call sequence `ops0` (two `min`
calls, one `max Date.now` call) the chain holds at most one minimum entry,
and a further `min(null)` call leaves zero minimum entries. -/
theorem min_max_at_most_one_bound_witness :
    Bound.truthy (.js .vnull) = false ∧
    countMin (runOps host0 (initState "p") ops0) ≤ 1 ∧
    countMin (SchemaDate.min host0 (runOps host0 (initState "p") ops0) (.js .vnull) none).1
      = 0 :=
  ⟨by decide, (min_max_at_most_one_bound host0 "p" ops0).1,
   ((min_max_at_most_one_bound host0 "p" ops0).2.2 (.js .vnull) none (by decide)).1⟩

/-- A decided strict comparison is the negated reversed weak comparison
(on the integer time values). -/
theorem decide_lt_eq_not_decide_le (a b : ℤ) : decide (a < b) = !decide (b ≤ a) := by
  by_cases h : a < b
  · simp [h, not_le.mpr h]
  · simp [h, le_of_not_lt h]

/-- Claim C6: one evaluation of an installed bound-validator predicate on a
valid date candidate.  A deferred `Date.now` bound resolves to the clock
reading `now` of that very evaluation (the entry stores only the marker, so
the comparison changes as `now` changes — nothing is precomputed at
installation), while a literal bound is resolved by running it through
`cast` at evaluation time; the comparison is bound ≤ candidate for `min`
and candidate ≤ bound for `max` on numeric time values. -/
theorem bound_validator_resolution (path msg : String) (i : Nat) (now t : Int) :
    (evalValidator path ⟨i, .vmin, .dateNow, msg⟩ now (.vdate (some t)) =
       .ok (decide ((now : ℚ) ≤ (t : ℚ)))) ∧
    (evalValidator path ⟨i, .vmax, .dateNow, msg⟩ now (.vdate (some t)) =
       .ok (decide ((t : ℚ) ≤ (now : ℚ)))) ∧
    (∀ (b : JSValue) (m : Int), SchemaDate.cast path b = .ok (.vdate (some m)) →
       evalValidator path ⟨i, .vmin, .js b, msg⟩ now (.vdate (some t)) =
         .ok (decide ((m : ℚ) ≤ (t : ℚ))) ∧
       evalValidator path ⟨i, .vmax, .js b, msg⟩ now (.vdate (some t)) =
         .ok (decide ((t : ℚ) ≤ (m : ℚ)))) := by
  refine ⟨?_, ?_, ?_⟩
  · simp [evalValidator, resolveBound, jsValueOf, jsGEb, JSNum.ltb, JSPrim.toNumber,
      decide_lt_eq_not_decide_le]
  · simp [evalValidator, resolveBound, jsValueOf, jsLEb, JSNum.ltb, JSPrim.toNumber,
      decide_lt_eq_not_decide_le]
  · intro b m hc
    constructor
    · simp [evalValidator, resolveBound, hc, jsValueOf, jsGEb, JSNum.ltb, JSPrim.toNumber,
        decide_lt_eq_not_decide_le]
    · simp [evalValidator, resolveBound, hc, jsValueOf, jsLEb, JSNum.ltb, JSPrim.toNumber,
        decide_lt_eq_not_decide_le]

/-- Witness for C6 with literal bound `new Date(4)`, candidate
`new Date(5)`, clock reading `3`. -/
theorem bound_validator_resolution_witness :
    SchemaDate.cast "p" (.vdate (some 4)) = .ok (.vdate (some 4)) ∧
    (evalValidator "p" ⟨0, .vmin, .js (.vdate (some 4)), ""⟩ 3 (.vdate (some 5)) =
       .ok (decide ((4 : ℚ) ≤ (5 : ℚ))) ∧
     evalValidator "p" ⟨0, .vmax, .js (.vdate (some 4)), ""⟩ 3 (.vdate (some 5)) =
       .ok (decide ((5 : ℚ) ≤ (4 : ℚ)))) :=
  ⟨rfl, (bound_validator_resolution "p" "" 0 3 5).2.2 (.vdate (some 4)) 4 rfl⟩

/-- Exhaustive description of one `min` call: falsy bound (remove only),
message computation throws (remove only, error reported), or install. -/
theorem schemaMin_cases (host : Host) (st : SchemaDateState) (b : Bound) (msgO : Option String) :
    (b.truthy = false ∧ SchemaDate.min host st b msgO = (SchemaDate.removeMin st, none)) ∨
    (b.truthy = true ∧ ∃ err, SchemaDate.boundMsgToken host st.path b = .error err ∧
        SchemaDate.min host st b msgO = (SchemaDate.removeMin st, some err)) ∨
    (b.truthy = true ∧ ∃ tok, SchemaDate.boundMsgToken host st.path b = .ok tok ∧
        SchemaDate.min host st b msgO =
          ({ SchemaDate.removeMin st with
              validators := (SchemaDate.removeMin st).validators ++
                [⟨(SchemaDate.removeMin st).nextId, .vmin, b,
                  replaceFirst (msgO.getD host.msgDateMin) "\x7bMIN\x7d" tok⟩],
              minValidator := some (SchemaDate.removeMin st).nextId,
              nextId := (SchemaDate.removeMin st).nextId + 1 }, none)) := by
  unfold SchemaDate.min
  by_cases hb : b.truthy
  · rw [(removeMin_fields st).1.symm]
    cases hm : SchemaDate.boundMsgToken host (SchemaDate.removeMin st).path b with
    | error err =>
        refine .inr (.inl ⟨hb, err, rfl, ?_⟩)
        simp [hb, hm]
    | ok tok =>
        refine .inr (.inr ⟨hb, tok, rfl, ?_⟩)
        simp [hb, hm]
  · refine .inl ⟨by simpa using hb, ?_⟩
    simp [hb]

/-- Exhaustive description of one `max` call. -/
theorem schemaMax_cases (host : Host) (st : SchemaDateState) (b : Bound) (msgO : Option String) :
    (b.truthy = false ∧ SchemaDate.max host st b msgO = (SchemaDate.removeMax st, none)) ∨
    (b.truthy = true ∧ ∃ err, SchemaDate.boundMsgToken host st.path b = .error err ∧
        SchemaDate.max host st b msgO = (SchemaDate.removeMax st, some err)) ∨
    (b.truthy = true ∧ ∃ tok, SchemaDate.boundMsgToken host st.path b = .ok tok ∧
        SchemaDate.max host st b msgO =
          ({ SchemaDate.removeMax st with
              validators := (SchemaDate.removeMax st).validators ++
                [⟨(SchemaDate.removeMax st).nextId, .vmax, b,
                  replaceFirst (msgO.getD host.msgDateMax) "\x7bMAX\x7d" tok⟩],
              maxValidator := some (SchemaDate.removeMax st).nextId,
              nextId := (SchemaDate.removeMax st).nextId + 1 }, none)) := by
  unfold SchemaDate.max
  by_cases hb : b.truthy
  · rw [(removeMax_fields st).1.symm]
    cases hm : SchemaDate.boundMsgToken host (SchemaDate.removeMax st).path b with
    | error err =>
        refine .inr (.inl ⟨hb, err, rfl, ?_⟩)
        simp [hb, hm]
    | ok tok =>
        refine .inr (.inr ⟨hb, tok, rfl, ?_⟩)
        simp [hb, hm]
  · refine .inl ⟨by simpa using hb, ?_⟩
    simp [hb]

/-- A successfully computed message token implies the bound resolves
successfully at every evaluation (for a literal bound, because `cast` is a
pure function: the cast that succeeded at installation succeeds again). -/
theorem boundMsgToken_ok_resolve {host : Host} {path : String} {b : Bound} {tok : String}
    (hm : SchemaDate.boundMsgToken host path b = .ok tok) :
    ∀ now : Int, ∃ m, resolveBound path b now = .ok m := by
  intro now
  cases b with
  | dateNow => exact ⟨_, rfl⟩
  | js v =>
      simp only [SchemaDate.boundMsgToken] at hm
      cases hcast : SchemaDate.cast path v with
      | error err => rw [hcast] at hm; exact absurd hm (by simp)
      | ok r => exact ⟨r, by simp [resolveBound, hcast]⟩

/-- The entry added by a non-throwing `min` call is the freshly pushed
minimum entry, and its bound resolves at every evaluation. -/
theorem min_new_entry {host : Host} {st : SchemaDateState} {b : Bound} {msgO : Option String}
    {e : ValidatorEntry}
    (h1 : (SchemaDate.min host st b msgO).2 = none)
    (h2 : e ∈ (SchemaDate.min host st b msgO).1.validators)
    (h3 : e ∉ st.validators) :
    e.vkind = .vmin ∧ e.bound = b ∧ ∀ now : Int, ∃ m, resolveBound st.path b now = .ok m := by
  rcases schemaMin_cases host st b msgO with ⟨hb, heq⟩ | ⟨hb, err, hm, heq⟩ | ⟨hb, tok, hm, heq⟩
  · rw [heq] at h2
    exact absurd ((removeMin_sublist st).mem h2) h3
  · rw [heq] at h1
    exact absurd h1 (by simp)
  · rw [heq] at h2
    rcases List.mem_append.mp h2 with hin | hin
    · exact absurd ((removeMin_sublist st).mem hin) h3
    · rw [List.mem_singleton.mp hin]
      exact ⟨rfl, rfl, boundMsgToken_ok_resolve hm⟩

/-- The entry added by a non-throwing `max` call is the freshly pushed
maximum entry, and its bound resolves at every evaluation. -/
theorem max_new_entry {host : Host} {st : SchemaDateState} {b : Bound} {msgO : Option String}
    {e : ValidatorEntry}
    (h1 : (SchemaDate.max host st b msgO).2 = none)
    (h2 : e ∈ (SchemaDate.max host st b msgO).1.validators)
    (h3 : e ∉ st.validators) :
    e.vkind = .vmax ∧ e.bound = b ∧ ∀ now : Int, ∃ m, resolveBound st.path b now = .ok m := by
  rcases schemaMax_cases host st b msgO with ⟨hb, heq⟩ | ⟨hb, err, hm, heq⟩ | ⟨hb, tok, hm, heq⟩
  · rw [heq] at h2
    exact absurd ((removeMax_sublist st).mem h2) h3
  · rw [heq] at h1
    exact absurd h1 (by simp)
  · rw [heq] at h2
    rcases List.mem_append.mp h2 with hin | hin
    · exact absurd ((removeMax_sublist st).mem hin) h3
    · rw [List.mem_singleton.mp hin]
      exact ⟨rfl, rfl, boundMsgToken_ok_resolve hm⟩

/-- Claim C7: the predicate of every installed bound validator — installed
means: added to the chain by a `min`/`max` call that did not throw —
returns `true` on a `null` candidate, whatever the bound (deferred marker
or literal): `val === null` short-circuits the comparison, and the bound
resolution that precedes it succeeds because the same cast already
succeeded at installation. -/
theorem installed_bound_validator_null_ok (host : Host) (st : SchemaDateState) (b : Bound)
    (msgO : Option String) (e : ValidatorEntry) (now : Int)
    (h : ((SchemaDate.min host st b msgO).2 = none ∧
            e ∈ (SchemaDate.min host st b msgO).1.validators ∧ e ∉ st.validators) ∨
         ((SchemaDate.max host st b msgO).2 = none ∧
            e ∈ (SchemaDate.max host st b msgO).1.validators ∧ e ∉ st.validators)) :
    evalValidator st.path e now .vnull = .ok true := by
  have hres : e.bound = b ∧ ∀ n : Int, ∃ m, resolveBound st.path b n = .ok m := by
    rcases h with ⟨h1, h2, h3⟩ | ⟨h1, h2, h3⟩
    · exact ⟨(min_new_entry h1 h2 h3).2.1, (min_new_entry h1 h2 h3).2.2⟩
    · exact ⟨(max_new_entry h1 h2 h3).2.1, (max_new_entry h1 h2 h3).2.2⟩
  obtain ⟨m, hm⟩ := hres.2 now
  simp [evalValidator, hres.1, hm]

/-- Witness for C7: the entry `e0` freshly installed by
`min(new Date(7))` on a fresh state accepts `null`. -/
theorem installed_bound_validator_null_ok_witness :
    (SchemaDate.min host0 (initState "p") (.js (.vdate (some 7))) none).2 = none ∧
    e0 ∈ (SchemaDate.min host0 (initState "p") (.js (.vdate (some 7))) none).1.validators ∧
    evalValidator (initState "p").path e0 11 .vnull = .ok true :=
  ⟨by decide, by decide,
   installed_bound_validator_null_ok host0 (initState "p") (.js (.vdate (some 7))) none e0 11
     (Or.inl ⟨by decide, by decide, by decide⟩)⟩

/-- Claim C10: the `null` tolerance does not extend to `undefined`: the
predicate of every installed bound validator throws `TypeError` on an
`undefined` candidate (from `val.valueOf()` on `undefined`) instead of
returning a boolean. -/
theorem installed_bound_validator_undefined_throws (host : Host) (st : SchemaDateState)
    (b : Bound) (msgO : Option String) (e : ValidatorEntry) (now : Int)
    (h : ((SchemaDate.min host st b msgO).2 = none ∧
            e ∈ (SchemaDate.min host st b msgO).1.validators ∧ e ∉ st.validators) ∨
         ((SchemaDate.max host st b msgO).2 = none ∧
            e ∈ (SchemaDate.max host st b msgO).1.validators ∧ e ∉ st.validators)) :
    evalValidator st.path e now .vundefined = .error .typeError := by
  have hres : e.bound = b ∧ ∀ n : Int, ∃ m, resolveBound st.path b n = .ok m := by
    rcases h with ⟨h1, h2, h3⟩ | ⟨h1, h2, h3⟩
    · exact ⟨(min_new_entry h1 h2 h3).2.1, (min_new_entry h1 h2 h3).2.2⟩
    · exact ⟨(max_new_entry h1 h2 h3).2.1, (max_new_entry h1 h2 h3).2.2⟩
  obtain ⟨m, hm⟩ := hres.2 now
  simp [evalValidator, hres.1, hm, jsValueOf]

/-- Witness for C10: the entry installed by `max(Date.now)` on a fresh
state throws `TypeError` on an `undefined` candidate. -/
theorem installed_bound_validator_undefined_throws_witness :
    (SchemaDate.max host0 (initState "q") .dateNow none).2 = none ∧
    (⟨0, .vmax, .dateNow, "too late"⟩ : ValidatorEntry) ∈
      (SchemaDate.max host0 (initState "q") .dateNow none).1.validators ∧
    evalValidator (initState "q").path ⟨0, .vmax, .dateNow, "too late"⟩ 11 .vundefined =
      .error .typeError :=
  ⟨by decide, by decide,
   installed_bound_validator_undefined_throws host0 (initState "q") .dateNow none
     ⟨0, .vmax, .dateNow, "too late"⟩ 11 (Or.inr ⟨by decide, by decide, by decide⟩)⟩

/-- Claim C8: in the two-argument form of `castForQuery`, each of the four
ordering operators delegates to `cast` on the operand, and an operator with
no handler in the conditional-handler mapping throws the usage error
`Can't use <op> with Date.` naming the operator and the field kind. -/
theorem castForQuery_ordering_and_unknown (base : String → Option Handler) (path : String)
    (val : JSValue) :
    SchemaDate.castForQuery2 base path "$gt" val = SchemaDate.cast path val ∧
    SchemaDate.castForQuery2 base path "$gte" val = SchemaDate.cast path val ∧
    SchemaDate.castForQuery2 base path "$lt" val = SchemaDate.cast path val ∧
    SchemaDate.castForQuery2 base path "$lte" val = SchemaDate.cast path val ∧
    (∀ op : String, SchemaDate.conditionalHandlers base op = none →
      SchemaDate.castForQuery2 base path op val = .error (.jsError (cantUseMsg op))) := by
  refine ⟨rfl, rfl, rfl, rfl, ?_⟩
  intro op hop
  simp [SchemaDate.castForQuery2, hop]

/-- Witness for C8 at the unhandled operator `$foo` over an empty base
table. -/
theorem castForQuery_ordering_and_unknown_witness :
    SchemaDate.conditionalHandlers base0 "$foo" = none ∧
    SchemaDate.castForQuery2 base0 "p" "$foo" (.vdate (some 1)) =
      .error (.jsError (cantUseMsg "$foo")) :=
  ⟨rfl, (castForQuery_ordering_and_unknown base0 "p" (.vdate (some 1))).2.2.2.2 "$foo" rfl⟩
